import Mathlib

/-!
Verification development for the z-sandbox 4096-pipeline core:
secure seed generation (`z_seed_generator.h`), SHA-256-based domain-separated
key derivation, Miller-Rabin primality testing with seed-derived and fixed
witnesses, and the bounded candidate searches (`z5d_key_gen.c`).

Bytes are modelled as `List Nat` (each entry < 256), big integers (`mpz_t`)
as `Nat`, and C `unsigned long` values as `Nat` with explicit `% 2 ^ 64`
where the C arithmetic can wrap.  Fallible operations return `Option`.
The OpenMP parallel path is not modelled; the sequential loop in
`search_prime_candidates` is the semantics used by every claim.
-/

/-! ### SHA-256 (FIPS 180-4), the model of OpenSSL's `SHA256`

Words are `Nat` reduced modulo `2 ^ 32`.  The digest of a byte list is a
32-byte list. -/

def w32 (x : Nat) : Nat := x % 4294967296

def rotr32 (x n : Nat) : Nat := w32 ((x >>> n) ||| (x <<< (32 - n)))

def shaCh (x y z : Nat) : Nat := (x &&& y) ^^^ ((x ^^^ 4294967295) &&& z)

def shaMaj (x y z : Nat) : Nat := (x &&& y) ^^^ (x &&& z) ^^^ (y &&& z)

def shaBigSigma0 (x : Nat) : Nat := rotr32 x 2 ^^^ rotr32 x 13 ^^^ rotr32 x 22

def shaBigSigma1 (x : Nat) : Nat := rotr32 x 6 ^^^ rotr32 x 11 ^^^ rotr32 x 25

def shaSmallSigma0 (x : Nat) : Nat := rotr32 x 7 ^^^ rotr32 x 18 ^^^ (x >>> 3)

def shaSmallSigma1 (x : Nat) : Nat := rotr32 x 17 ^^^ rotr32 x 19 ^^^ (x >>> 10)

/-- The 64 round constants of SHA-256, written in decimal
(`428a2f98, 71374491, ... c67178f2` in the standard's hex). -/
def sha256K : List Nat :=
  [1116352408, 1899447441, 3049323471, 3921009573, 961987163,
   1508970993, 2453635748, 2870763221, 3624381080, 310598401,
   607225278, 1426881987, 1925078388, 2162078206, 2614888103,
   3248222580, 3835390401, 4022224774, 264347078, 604807628,
   770255983, 1249150122, 1555081692, 1996064986, 2554220882,
   2821834349, 2952996808, 3210313671, 3336571891, 3584528711,
   113926993, 338241895, 666307205, 773529912, 1294757372,
   1396182291, 1695183700, 1986661051, 2177026350, 2456956037,
   2730485921, 2820302411, 3259730800, 3345764771, 3516065817,
   3600352804, 4094571909, 275423344, 430227734, 506948616,
   659060556, 883997877, 958139571, 1322822218, 1537002063,
   1747873779, 1955562222, 2024104815, 2227730452, 2361852424,
   2428436474, 2756734187, 3204031479, 3329325298]

structure SHA256State where
  sa : Nat
  sb : Nat
  sc : Nat
  sd : Nat
  se : Nat
  sf : Nat
  sg : Nat
  sh : Nat

/-- The SHA-256 initial hash value, in decimal (`6a09e667 ... 5be0cd19`). -/
def sha256InitState : SHA256State :=
  ⟨1779033703, 3144134277, 1013904242, 2773480762,
   1359893119, 2600822924, 528734635, 1541459225⟩

/-- Big-endian 32-bit words from a byte list (trailing bytes short of a word
are dropped; blocks are always exactly 64 bytes so this never loses data). -/
def bytesToWords : List Nat → List Nat
  | b0 :: b1 :: b2 :: b3 :: rest =>
      (b0 * 16777216 + b1 * 65536 + b2 * 256 + b3) :: bytesToWords rest
  | _ => []

/-- Message-schedule extension: append `fuel` words, each computed from the
words 2, 7, 15 and 16 positions back. -/
def sha256Schedule (w : List Nat) : Nat → List Nat
  | 0 => w
  | fuel + 1 =>
      let t := w.length
      sha256Schedule
        (w ++ [w32 (shaSmallSigma1 (w.getD (t - 2) 0) + w.getD (t - 7) 0 +
                    shaSmallSigma0 (w.getD (t - 15) 0) + w.getD (t - 16) 0)])
        fuel

def sha256CompressStep (st : SHA256State) (kw : Nat × Nat) : SHA256State :=
  let t1 := w32 (st.sh + shaBigSigma1 st.se + shaCh st.se st.sf st.sg + kw.1 + kw.2)
  let t2 := w32 (shaBigSigma0 st.sa + shaMaj st.sa st.sb st.sc)
  ⟨w32 (t1 + t2), st.sa, st.sb, st.sc, w32 (st.sd + t1), st.se, st.sf, st.sg⟩

def sha256CompressBlock (st : SHA256State) (block : List Nat) : SHA256State :=
  let w := sha256Schedule (bytesToWords block) 48
  let r := (sha256K.zip w).foldl sha256CompressStep st
  ⟨w32 (st.sa + r.sa), w32 (st.sb + r.sb), w32 (st.sc + r.sc), w32 (st.sd + r.sd),
   w32 (st.se + r.se), w32 (st.sf + r.sf), w32 (st.sg + r.sg), w32 (st.sh + r.sh)⟩

/-- FIPS 180-4 padding: append `0x80`, zeros to 56 mod 64, then the bit
length as a 64-bit big-endian integer. -/
def sha256Pad (msg : List Nat) : List Nat :=
  let L := msg.length
  msg ++ 128 :: List.replicate ((119 - L % 64) % 64) 0 ++
    (List.range 8).map (fun i => 8 * L / 2 ^ (8 * (7 - i)) % 256)

/-- Split into 64-byte blocks.  The fuel (one unit per block) is instantiated
with the list length, which always suffices. -/
def chunks64 : Nat → List Nat → List (List Nat)
  | 0, _ => []
  | _, [] => []
  | fuel + 1, l => l.take 64 :: chunks64 fuel (l.drop 64)

def wordBytes (w : Nat) : List Nat :=
  [w / 16777216 % 256, w / 65536 % 256, w / 256 % 256, w % 256]

def sha256 (msg : List Nat) : List Nat :=
  let padded := sha256Pad msg
  let fin := (chunks64 padded.length padded).foldl sha256CompressBlock sha256InitState
  wordBytes fin.sa ++ wordBytes fin.sb ++ wordBytes fin.sc ++ wordBytes fin.sd ++
  wordBytes fin.se ++ wordBytes fin.sf ++ wordBytes fin.sg ++ wordBytes fin.sh

theorem sha256_length (msg : List Nat) : (sha256 msg).length = 32 := by
  simp [sha256, wordBytes]

/-! ### Byte conversions (the models of `mpz_export` / `mpz_import` and the
raw-memory hashing of `unsigned long` values on a little-endian machine) -/

/-- Minimal big-endian byte representation of a natural number; `0` is one
zero byte, matching the `exported == 0` fix-up in
`generate_geodesic_witnesses`. -/
def bytesOfNat (x : Nat) : List Nat :=
  if x < 256 then [x] else bytesOfNat (x / 256) ++ [x % 256]
termination_by x
decreasing_by exact Nat.div_lt_self (by omega) (by omega)

/-- Big-endian byte list to natural number (`mpz_import` order 1, size 1). -/
def natOfBytes (bs : List Nat) : Nat := bs.foldl (fun acc b => acc * 256 + b) 0

/-- The 8 bytes of a 64-bit value in memory, little-endian: how
`SHA256_Update(ctx, &hint, sizeof(hint))` sees an `unsigned long`. -/
def bytes8LE (x : Nat) : List Nat := (List.range 8).map fun i => x / 256 ^ i % 256

/-- `mpz_setbit`: set bit `b` (idempotent). -/
def mpz_setbit (x b : Nat) : Nat := if x.testBit b then x else x + 2 ^ b

/-- `mpz_clrbit`: clear bit `b` (idempotent). -/
def mpz_clrbit (x b : Nat) : Nat := if x.testBit b then x - 2 ^ b else x

/-! ### Miller-Rabin (`z5d_key_gen.c`) -/

/-- The fields of `config_t` the primality and search code reads: the 32-byte
master seed.  (The remaining fields — bits, e, validity, the Z5D estimator
parameters and bumps — are not consulted by any function modelled here.) -/
structure Config where
  seed : List Nat

def MR_GEODESIC_WITNESSES : Nat := 6
def MR_STANDARD_WITNESSES : Nat := 8

def MR_STANDARD_BASES : List Nat := [2, 3, 5, 7, 11, 13, 17, 19]

/-- `mr_context_t`: precomputed modulus context. -/
structure MRContext where
  n : Nat
  n_minus_1 : Nat
  n_minus_3 : Nat
  d : Nat
  r : Nat

/-- The halving loop of `mr_context_init`: divide by 2 while even, counting.
The fuel (one unit per halving) is instantiated with the starting value,
which always suffices; the C loop is only ever entered with `d ≥ 2`. -/
def splitTwosAux : Nat → Nat → Nat → Nat × Nat
  | 0, d, r => (d, r)
  | fuel + 1, d, r =>
      if d % 2 = 0 then
        if d = 0 then (d, r) else splitTwosAux fuel (d / 2) (r + 1)
      else (d, r)

def splitTwos (d : Nat) : Nat × Nat := splitTwosAux d d 0

def mr_context_init (n : Nat) : MRContext :=
  let n1 := n - 1
  let n3 := if 3 < n then n - 3 else 0
  let dr := splitTwos n1
  ⟨n, n1, n3, dr.1, dr.2⟩

/-- `map_witness_into_range`: clamp `w < 2` to 2; fold `w ≥ n-1` to
`w mod (n-3) + 2`, degenerating to 2 when `n-3 ≤ 1`. -/
def map_witness_into_range (ctx : MRContext) (w : Nat) : Nat :=
  if w < 2 then 2
  else if ctx.n_minus_1 ≤ w then
    if ctx.n_minus_3 ≤ 1 then 2 else w % ctx.n_minus_3 + 2
  else w

def generate_standard_witnesses (count : Nat) (ctx : MRContext) : List Nat :=
  (MR_STANDARD_BASES.take count).map (map_witness_into_range ctx)

/-- `generate_geodesic_witnesses`: witness `i` is the SHA-256 digest of
`candidate_bytes || seed || hint || i` (hint and loop index hashed as 8-byte
little-endian machine values), imported as a big-endian integer and
range-mapped.  The `malloc`-failure fallback (all witnesses 2) is not
modelled; memory is assumed available. -/
def generate_geodesic_witnesses (count : Nat) (candidate : Nat) (cfg : Config)
    (hint : Nat) (ctx : MRContext) : List Nat :=
  if count = 0 then []
  else if ctx.n_minus_3 ≤ 1 then List.replicate count 2
  else
    (List.range count).map fun i =>
      map_witness_into_range ctx
        (natOfBytes (sha256 (bytesOfNat candidate ++ cfg.seed ++
          bytes8LE hint ++ bytes8LE i)))

/-- The squaring loop of `miller_rabin_round`: square `x` modulo `n` up to
`fuel` times (the caller passes `r - 1`), returning true as soon as an
intermediate equals `n - 1`. -/
def mrSquareLoop (n : Nat) (x : Nat) : Nat → Bool
  | 0 => false
  | fuel + 1 =>
      let x2 := x * x % n
      if x2 = n - 1 then true else mrSquareLoop n x2 fuel

def miller_rabin_round (ctx : MRContext) (witness : Nat) : Bool :=
  let x := witness ^ ctx.d % ctx.n
  if x = 1 ∨ x = ctx.n_minus_1 then true
  else mrSquareLoop ctx.n x (ctx.r - 1)

/-- The early-exit witness loops of `candidate_is_probable_prime`: return
false at the first failing round. -/
def witnessRoundsLoop (ctx : MRContext) : List Nat → Bool
  | [] => true
  | w :: ws => if miller_rabin_round ctx w then witnessRoundsLoop ctx ws else false

def candidate_is_probable_prime (candidate : Nat) (cfg : Config) (hint : Nat) : Bool :=
  if candidate < 2 then false
  else if candidate = 2 then true
  else if candidate % 2 = 0 then false
  else
    let ctx := mr_context_init candidate
    let geodesic := generate_geodesic_witnesses MR_GEODESIC_WITNESSES candidate cfg hint ctx
    let standard := generate_standard_witnesses MR_STANDARD_WITNESSES ctx
    if witnessRoundsLoop ctx geodesic then witnessRoundsLoop ctx standard else false

/-! ### Reference Miller-Rabin definition, written from the specification's
words (section 4.5), for the refinement claim: given odd `n > 2` with
`n - 1 = d * 2 ^ r` (`d` odd) and witness `a`, compute `x = a ^ d mod n`;
the round passes if `x = 1` or `x = n - 1`, or if some intermediate
`x ^ (2 ^ i) mod n` with `1 ≤ i ≤ r - 1` equals `n - 1`.  All seed-derived
witnesses run first, then all fixed witnesses; the candidate is accepted only
if every witness in both sets passes. -/

def mrRoundSpec (n d r a : Nat) : Bool :=
  let x := a ^ d % n
  decide (x = 1) || decide (x = n - 1) ||
    (List.range r).any fun i => decide (1 ≤ i) && decide (x ^ 2 ^ i % n = n - 1)

def probablePrimeSpec (n : Nat) (cfg : Config) (hint : Nat) : Bool :=
  if n < 2 then false
  else if n = 2 then true
  else if n % 2 = 0 then false
  else
    let d := (splitTwos (n - 1)).1
    let r := (splitTwos (n - 1)).2
    let ctx := mr_context_init n
    (generate_geodesic_witnesses MR_GEODESIC_WITNESSES n cfg hint ctx).all
        (mrRoundSpec n d r) &&
      (generate_standard_witnesses MR_STANDARD_WITNESSES ctx).all (mrRoundSpec n d r)

/-! ### Candidate search (`search_prime_candidates`, sequential path) -/

/-- `x931_too_close_2048`: top-100-bit equality at 2048-bit width. -/
def x931_too_close_2048 (a b : Nat) : Bool :=
  decide (a / 2 ^ (2048 - 100) = b / 2 ^ (2048 - 100))

/-- The acceptance guard of the search loops: a probable prime is returned
unless `enforce_not_too_close` is set, a reference is present, and the
candidate's top bits match it (`!enforce || !ref || !too_close` in C). -/
def too_close_guard (too_close_ref : Option Nat) (enforce_not_too_close : Bool)
    (candidate : Nat) : Bool :=
  match too_close_ref with
  | some tcr => !(enforce_not_too_close && x931_too_close_2048 tcr candidate)
  | none => true

/-- The sequential candidate loop: test, advance by 2, clamp or stop at
`limit_bit`.  One unit of fuel per attempt; `search_prime_candidates` passes
`max_attempts`.  Returns the probable prime found and the attempt index. -/
def search_loop (cfg : Config) (hint_seed limit_bit : Nat) (clamp_on_limit : Bool)
    (too_close_ref : Option Nat) (enforce_not_too_close : Bool) :
    Nat → Nat → Nat → Option (Nat × Nat)
  | _, _, 0 => none
  | candidate, attempt, fuel + 1 =>
      let hint_value := hint_seed ^^^ attempt
      if candidate_is_probable_prime candidate cfg hint_value &&
          too_close_guard too_close_ref enforce_not_too_close candidate then
        some (candidate, attempt)
      else
        let next := candidate + 2
        if 0 < limit_bit && next.testBit limit_bit then
          if clamp_on_limit then
            search_loop cfg hint_seed limit_bit clamp_on_limit too_close_ref
              enforce_not_too_close
              (mpz_setbit (mpz_clrbit next limit_bit) (limit_bit - 1)) (attempt + 1) fuel
          else none
        else
          search_loop cfg hint_seed limit_bit clamp_on_limit too_close_ref
            enforce_not_too_close next (attempt + 1) fuel

def search_prime_candidates (start max_attempts : Nat) (cfg : Config)
    (hint_seed : Nat) (limit_bit : Nat) (clamp_on_limit : Bool)
    (too_close_ref : Option Nat) (enforce_not_too_close : Bool) :
    Option (Nat × Nat) :=
  if max_attempts = 0 then none
  else search_loop cfg hint_seed limit_bit clamp_on_limit too_close_ref
    enforce_not_too_close start 0 max_attempts

/-! ### Segmented guided search (`guided_prime_search`) -/

/-- The segment-size computation of `guided_prime_search`: start from the
whole remaining budget, and when the doubled budget (saturating at
`ULONG_MAX`) would reach the distance to the `2^2048` boundary, shrink the
segment to `distance / 2` (at least 1) so the stride cannot cross it. -/
def guided_segment (current_start remaining : Nat) : Nat :=
  let distance := 2 ^ 2048 - current_start
  let twice_seg := min (remaining * 2) (2 ^ 64 - 1)
  if distance ≤ twice_seg then min remaining (max (distance / 2) 1)
  else remaining

/-- One segment iteration of `guided_prime_search`.  The fuel (one unit per
segment) is instantiated with `max_attempts`; since every segment consumes at
least one attempt this never cuts the search short.  Returns the prime and
total attempts used. -/
def guided_loop (cfg : Config) (hint_seed : Nat) (too_close_ref : Option Nat)
    (enforce_not_too_close : Bool) (base_start : Nat) :
    Nat → Nat → Nat → Nat → Option (Nat × Nat)
  | 0, _, _, _ => none
  | fuel + 1, current_start, remaining, offset =>
      if remaining = 0 then none
      else if 2 ^ 2048 ≤ current_start then none
      else
        let segment := guided_segment current_start remaining
        match search_prime_candidates current_start segment cfg
            ((hint_seed + offset) % 2 ^ 64) 2048 false too_close_ref
            enforce_not_too_close with
        | some pa => some (pa.1, offset + pa.2)
        | none =>
            let offset2 := offset + segment
            let remaining2 := remaining - segment
            if remaining2 = 0 then none
            else
              let current2 := base_start + 2 * offset2
              if 2 ^ 2048 ≤ current2 then none
              else guided_loop cfg hint_seed too_close_ref enforce_not_too_close
                base_start fuel current2 remaining2 offset2

/-- Fold the estimated start into `[0, 2^2048)`, force bit 2047 and bit 0. -/
def guided_base_start (estimated_start : Nat) : Nat :=
  mpz_setbit (mpz_setbit (estimated_start % 2 ^ 2048) 2047) 0

def guided_prime_search (estimated_start max_attempts : Nat) (cfg : Config)
    (hint_seed : Nat) (too_close_ref : Option Nat)
    (enforce_not_too_close : Bool) : Option (Nat × Nat) :=
  let base := guided_base_start estimated_start
  guided_loop cfg hint_seed too_close_ref enforce_not_too_close base
    max_attempts base max_attempts 0

/-- The search origins `guided_prime_search` actually hands to
`search_prime_candidates`, collected by the same recursion and under the same
boundary guards. -/
def guided_loop_origins (cfg : Config) (hint_seed : Nat) (too_close_ref : Option Nat)
    (enforce_not_too_close : Bool) (base_start : Nat) :
    Nat → Nat → Nat → Nat → List Nat
  | 0, _, _, _ => []
  | fuel + 1, current_start, remaining, offset =>
      if remaining = 0 then []
      else if 2 ^ 2048 ≤ current_start then []
      else
        let segment := guided_segment current_start remaining
        current_start ::
          match search_prime_candidates current_start segment cfg
              ((hint_seed + offset) % 2 ^ 64) 2048 false too_close_ref
              enforce_not_too_close with
          | some _ => []
          | none =>
              let offset2 := offset + segment
              let remaining2 := remaining - segment
              if remaining2 = 0 then []
              else
                let current2 := base_start + 2 * offset2
                if 2 ^ 2048 ≤ current2 then []
                else guided_loop_origins cfg hint_seed too_close_ref
                  enforce_not_too_close base_start fuel current2 remaining2 offset2

def guided_search_origins (estimated_start max_attempts : Nat) (cfg : Config)
    (hint_seed : Nat) (too_close_ref : Option Nat)
    (enforce_not_too_close : Bool) : List Nat :=
  let base := guided_base_start estimated_start
  guided_loop_origins cfg hint_seed too_close_ref enforce_not_too_close base
    max_attempts base max_attempts 0

/-! ### Key derivation (`derive_seed`) -/

/-- The emission loop of `derive_seed`: copy up to 32 bytes of the current
digest, re-hash and continue until `remaining` bytes are produced. -/
def deriveLoop (digest : List Nat) (remaining : Nat) : List Nat :=
  if remaining ≤ 32 then digest.take remaining
  else digest.take 32 ++ deriveLoop (sha256 digest) (remaining - 32)
termination_by remaining
decreasing_by omega

/-- `derive_seed(base_seed, tag, output, output_size)`.  The two pointer
arguments and the output pointer are modelled as `Option` / a validity flag;
the returned list is the bytes written to `output`.  A NULL or empty output
means nothing is written; a NULL seed or tag zero-fills the output.
Otherwise the tag is truncated to its first 32 bytes, `digest0 =
SHA256(tag_bytes || seed)` seeds the emission loop. -/
def derive_seed (base_seed : Option (List Nat)) (tag : Option (List Char))
    (outputValid : Bool) (output_size : Nat) : List Nat :=
  if !outputValid || output_size = 0 then []
  else
    match base_seed, tag with
    | some seedBytes, some tagStr =>
        let tagBytes := (tagStr.take 32).map Char.toNat
        deriveLoop (sha256 (tagBytes ++ seedBytes)) output_size
    | _, _ => List.replicate output_size 0

/-- Specification-side digest stream (section 4.3): the concatenation
`digest0 || digest1 || ...` of `k` successive digests, where
`digest_{i+1} = SHA256(digest_i)`. -/
def digestChainBytes (digest : List Nat) : Nat → List Nat
  | 0 => []
  | k + 1 => digest ++ digestChainBytes (sha256 digest) k

/-! ### Secure seed generation (`z_generate_seed`, `z_seed_generator.h`)

The environment effects — opening `/dev/urandom`, the `read` result, the
`EVP` context allocation and digest computation — are modelled as explicit
parameters: `urandomOpenOk` (the `open` succeeded), `osBytes` (the bytes the
`read` returned), `salt` (the time/pid/clock mix input), `ctxAllocOk`
(`EVP_MD_CTX_new` succeeded) and `digestOk` (the `EVP_Digest*` calls all
returned 1, in which case the digest is SHA-256 of `seed || salt`). -/

inductive ZSeedResult where
  | ok (seed : List Nat)
  | errNullPointer
  | errEntropyUnavail
  | errReadFailure
  | errCryptoFailure
deriving DecidableEq

def z_generate_seed (seedPtrValid : Bool) (urandomOpenOk : Bool)
    (osBytes : List Nat) (salt : List Nat) (ctxAllocOk : Bool)
    (digestOk : Bool) : ZSeedResult :=
  if !seedPtrValid then .errNullPointer
  else if !urandomOpenOk then .errEntropyUnavail
  else if osBytes.length ≠ 32 then .errReadFailure
  else if !ctxAllocOk then .errCryptoFailure
  else
    let digest := sha256 (osBytes ++ salt)
    if !digestOk || digest.length < 32 then .errCryptoFailure
    else .ok (List.zipWith (fun a b => a ^^^ b) osBytes (digest.take 32))

/-! ### Hex encoding (`z_seed_to_hex` / `z_hex_to_seed`) -/

def hexDigitChar (v : Nat) : Char :=
  if v < 10 then Char.ofNat (48 + v) else Char.ofNat (87 + v)

/-- One byte as two lowercase hex characters (`"%02x"` of a `uint8_t`). -/
def byteToHex (b : Nat) : List Char := [hexDigitChar (b / 16), hexDigitChar (b % 16)]

/-- `z_seed_to_hex`: the 64-character string written for a 32-byte seed. -/
def z_seed_to_hex (seed : List Nat) : List Char := (seed.map byteToHex).flatten

def isHexDigitChar (c : Char) : Bool :=
  (48 ≤ c.toNat && c.toNat ≤ 57) || (97 ≤ c.toNat && c.toNat ≤ 102) ||
    (65 ≤ c.toNat && c.toNat ≤ 70)

def hexCharVal (c : Char) : Nat :=
  if c.toNat ≤ 57 then c.toNat - 48
  else if c.toNat ≤ 70 then c.toNat - 55
  else c.toNat - 87

def isScanSpace (c : Char) : Bool :=
  c = ' ' || c = '\t' || c = '\n' || c.toNat = 11 || c.toNat = 12 || c.toNat = 13

/-- `sscanf(s, "%02x", &v)` at the head of `s`: skip whitespace, then read
the longest prefix of at most two hex digits; fail (matching failure or EOF)
if no digit is found.  (The `0x`-prefix corner of `%x` is not modelled; no
input considered here contains an `x`.) -/
def scanHexByte (s : List Char) : Option Nat :=
  match s.dropWhile isScanSpace with
  | [] => none
  | c1 :: rest =>
      if isHexDigitChar c1 then
        match rest with
        | c2 :: _ =>
            if isHexDigitChar c2 then some (16 * hexCharVal c1 + hexCharVal c2)
            else some (hexCharVal c1)
        | [] => some (hexCharVal c1)
      else none

/-- The byte loop of `z_hex_to_seed`: byte `i` is scanned at offset `2*i`;
the first failing scan aborts with an error. -/
def hexToSeedLoop (hex : List Char) : Nat → Nat → Option (List Nat)
  | _, 0 => some []
  | i, count + 1 =>
      match scanHexByte (hex.drop (2 * i)) with
      | none => none
      | some b =>
          match hexToSeedLoop hex (i + 1) count with
          | none => none
          | some bs => some (b :: bs)

def z_hex_to_seed (hex : List Char) : Option (List Nat) := hexToSeedLoop hex 0 32

/-! ### Half-to-odd decomposition facts -/

theorem splitTwosAux_spec : ∀ (fuel d r : Nat), 0 < d → d ≤ fuel →
    (splitTwosAux fuel d r).1 % 2 = 1 ∧
      (splitTwosAux fuel d r).1 * 2 ^ (splitTwosAux fuel d r).2 = d * 2 ^ r := by
  intro fuel
  induction fuel with
  | zero => intro d r hd hle; omega
  | succ fuel ih =>
      intro d r hd hle
      by_cases h2 : d % 2 = 0
      · have hd0 : ¬d = 0 := by omega
        simp only [splitTwosAux, h2, if_true, hd0, if_false]
        have hdiv : 0 < d / 2 := by omega
        have hdle : d / 2 ≤ fuel := by omega
        obtain ⟨ho, hp⟩ := ih (d / 2) (r + 1) hdiv hdle
        refine ⟨ho, ?_⟩
        rw [hp, pow_succ]
        have : d / 2 * 2 = d := by omega
        calc d / 2 * (2 ^ r * 2) = d / 2 * 2 * 2 ^ r := by ring
          _ = d * 2 ^ r := by rw [this]
      · simp only [splitTwosAux, h2, if_false]
        exact ⟨by omega, by simp⟩

theorem splitTwos_spec (d : Nat) (hd : 0 < d) :
    (splitTwos d).1 % 2 = 1 ∧ (splitTwos d).1 * 2 ^ (splitTwos d).2 = d := by
  have := splitTwosAux_spec d d 0 hd (le_refl d)
  simpa [splitTwos] using this

theorem mr_context_decomposition (n : Nat) (h : 2 ≤ n) :
    (mr_context_init n).d % 2 = 1 ∧
      (mr_context_init n).d * 2 ^ (mr_context_init n).r = n - 1 := by
  have := splitTwos_spec (n - 1) (by omega)
  simpa [mr_context_init] using this

/-! ### Round semantics -/

theorem mrSquareLoop_iff (n : Nat) : ∀ (k x : Nat),
    (mrSquareLoop n x k = true ↔ ∃ i, 1 ≤ i ∧ i ≤ k ∧ x ^ 2 ^ i % n = n - 1) := by
  intro k
  induction k with
  | zero =>
      intro x
      simp only [mrSquareLoop]
      constructor
      · intro h; cases h
      · rintro ⟨i, h1, h0, -⟩; omega
  | succ k ih =>
      intro x
      simp only [mrSquareLoop]
      have hsq : ∀ i : Nat, (x * x % n) ^ 2 ^ i % n = x ^ 2 ^ (i + 1) % n := by
        intro i
        rw [Nat.pow_mod, Nat.mod_mod_of_dvd _ dvd_rfl, ← Nat.pow_mod, ← pow_two,
          ← pow_mul, pow_succ, Nat.mul_comm (2 ^ i) 2, Nat.mul_comm 2 (2 ^ i)]
      by_cases hx : x * x % n = n - 1
      · simp only [hx, if_true, true_iff]
        refine ⟨1, le_refl 1, by omega, ?_⟩
        rw [pow_one, pow_two]; exact hx
      · rw [if_neg hx, ih (x * x % n)]
        constructor
        · rintro ⟨i, h1, hik, heq⟩
          exact ⟨i + 1, by omega, by omega, by rw [← hsq i]; exact heq⟩
        · rintro ⟨i, h1, hik, heq⟩
          match i, h1 with
          | 1, _ =>
              exfalso; apply hx
              rw [pow_one, pow_two] at heq; exact heq
          | j + 2, _ =>
              exact ⟨j + 1, by omega, by omega, by rw [hsq (j + 1)]; exact heq⟩

theorem miller_rabin_round_eq_spec (n a : Nat) :
    miller_rabin_round (mr_context_init n) a =
      mrRoundSpec n (splitTwos (n - 1)).1 (splitTwos (n - 1)).2 a := by
  have hd : (mr_context_init n).d = (splitTwos (n - 1)).1 := rfl
  have hrr : (mr_context_init n).r = (splitTwos (n - 1)).2 := rfl
  have hn : (mr_context_init n).n = n := rfl
  have hn1 : (mr_context_init n).n_minus_1 = n - 1 := rfl
  unfold miller_rabin_round mrRoundSpec
  rw [hd, hrr, hn, hn1]
  set r := (splitTwos (n - 1)).2 with hr
  set x := a ^ (splitTwos (n - 1)).1 % n with hxdef
  by_cases h1 : x = 1 ∨ x = n - 1
  · rcases h1 with h | h <;> simp [h]
  · push_neg at h1
    rw [if_neg (by tauto)]
    rw [Bool.eq_iff_iff]
    rw [mrSquareLoop_iff]
    simp only [List.any_eq_true, List.mem_range, Bool.and_eq_true, decide_eq_true_eq,
      Bool.or_eq_true]
    constructor
    · rintro ⟨i, hi1, hir, heq⟩
      have : 0 < r := by omega
      exact Or.inr ⟨i, by omega, hi1, heq⟩
    · rintro (h | h)
      · rcases h with h | h
        · exact absurd h h1.1
        · exact absurd h h1.2
      · rcases h with ⟨i, hir, hi1, heq⟩
        exact ⟨i, hi1, by omega, heq⟩

theorem witnessRoundsLoop_eq_all (ctx : MRContext) :
    ∀ ws : List Nat, witnessRoundsLoop ctx ws = ws.all (miller_rabin_round ctx) := by
  intro ws
  induction ws with
  | nil => rfl
  | cons w ws ih =>
      simp only [witnessRoundsLoop, List.all_cons]
      by_cases h : miller_rabin_round ctx w <;> simp [h, ih]

/-- C1: `candidate_is_probable_prime` equals the reference Miller-Rabin
definition: false for `n < 2`, true for `n = 2`, false for even `n ≠ 2`;
otherwise, with `n - 1 = d * 2 ^ r` (`d` odd), a round with witness `a`
passes iff `a ^ d mod n` is `1` or `n - 1` or some intermediate square
`x ^ (2 ^ i) mod n` (`1 ≤ i ≤ r - 1`) equals `n - 1`; all six seed-derived
witnesses run first, then all eight fixed witnesses, with early exit on the
first failure, accepting only if every witness in both sets passes. -/
theorem candidate_is_probable_prime_eq_spec (n : Nat) (cfg : Config) (hint : Nat) :
    candidate_is_probable_prime n cfg hint = probablePrimeSpec n cfg hint := by
  unfold candidate_is_probable_prime probablePrimeSpec
  by_cases h1 : n < 2
  · simp [h1]
  by_cases h2 : n = 2
  · simp [h1, h2]
  by_cases h3 : n % 2 = 0
  · simp [h1, h2, h3]
  simp only [if_neg h1, if_neg h2, if_neg h3]
  rw [witnessRoundsLoop_eq_all, witnessRoundsLoop_eq_all]
  have hfun : miller_rabin_round (mr_context_init n) =
      mrRoundSpec n (splitTwos (n - 1)).1 (splitTwos (n - 1)).2 :=
    funext fun a => miller_rabin_round_eq_spec n a
  rw [hfun]
  cases (generate_geodesic_witnesses MR_GEODESIC_WITNESSES n cfg hint
      (mr_context_init n)).all (mrRoundSpec n (splitTwos (n - 1)).1 (splitTwos (n - 1)).2) <;>
    simp

/-! ### Witness range invariant -/

theorem mr_context_n3 (n : Nat) (h : 3 < n) :
    (mr_context_init n).n_minus_3 = n - 3 := by
  simp [mr_context_init, h]

theorem map_witness_range (n : Nat) (h : 4 < n) (w : Nat) :
    2 ≤ map_witness_into_range (mr_context_init n) w ∧
      map_witness_into_range (mr_context_init n) w ≤ n - 2 := by
  have hn1 : (mr_context_init n).n_minus_1 = n - 1 := rfl
  have hn3 : (mr_context_init n).n_minus_3 = n - 3 := mr_context_n3 n (by omega)
  unfold map_witness_into_range
  rw [hn1, hn3]
  by_cases h1 : w < 2
  · rw [if_pos h1]; omega
  · rw [if_neg h1]
    by_cases h2 : n - 1 ≤ w
    · rw [if_pos h2, if_neg (by omega : ¬n - 3 ≤ 1)]
      have := Nat.mod_lt w (show 0 < n - 3 by omega)
      omega
    · rw [if_neg h2]; omega

theorem standard_witness_mem_range (n : Nat) (h : 4 < n) (count : Nat) :
    ∀ w ∈ generate_standard_witnesses count (mr_context_init n), 2 ≤ w ∧ w ≤ n - 2 := by
  intro w hw
  simp only [generate_standard_witnesses, List.mem_map] at hw
  obtain ⟨b, -, rfl⟩ := hw
  exact map_witness_range n h b

theorem geodesic_witness_mem_range (n : Nat) (h : 4 < n) (count : Nat)
    (cfg : Config) (hint : Nat) :
    ∀ w ∈ generate_geodesic_witnesses count n cfg hint (mr_context_init n),
      2 ≤ w ∧ w ≤ n - 2 := by
  intro w hw
  unfold generate_geodesic_witnesses at hw
  rw [mr_context_n3 n (by omega)] at hw
  by_cases hc : count = 0
  · simp [hc] at hw
  · rw [if_neg hc, if_neg (by omega : ¬n - 3 ≤ 1)] at hw
    simp only [List.mem_map, List.mem_range] at hw
    obtain ⟨i, -, rfl⟩ := hw
    exact map_witness_range n h _

/-- C2: for every candidate `n > 4`, every witness produced for `n` — each of
the eight fixed small-prime witnesses and each seed-derived witness, after
range-mapping — lies in `[2, n-2]`; the range-mapping clamps `w < 2` to 2,
folds `w ≥ n-1` to `w mod (n-3) + 2`, and forces the witness to 2 when
`n-3 ≤ 1`. -/
theorem witness_range_invariant (n : Nat) (cfg : Config) (hint : Nat) (h : 4 < n) :
    (∀ w ∈ generate_standard_witnesses MR_STANDARD_WITNESSES (mr_context_init n),
        2 ≤ w ∧ w ≤ n - 2) ∧
      (∀ w ∈ generate_geodesic_witnesses MR_GEODESIC_WITNESSES n cfg hint
          (mr_context_init n), 2 ≤ w ∧ w ≤ n - 2) ∧
      (∀ w, w < 2 → map_witness_into_range (mr_context_init n) w = 2) ∧
      (∀ w, n - 1 ≤ w →
        map_witness_into_range (mr_context_init n) w = w % (n - 3) + 2) ∧
      (∀ m w, (mr_context_init m).n_minus_3 ≤ 1 → 2 ≤ w →
        (mr_context_init m).n_minus_1 ≤ w →
        map_witness_into_range (mr_context_init m) w = 2) := by
  refine ⟨standard_witness_mem_range n h _, geodesic_witness_mem_range n h _ cfg hint,
    ?_, ?_, ?_⟩
  · intro w hw
    unfold map_witness_into_range
    rw [if_pos hw]
  · intro w hw
    unfold map_witness_into_range
    have hn1 : (mr_context_init n).n_minus_1 = n - 1 := rfl
    rw [hn1, mr_context_n3 n (by omega), if_neg (by omega : ¬w < 2), if_pos hw,
      if_neg (by omega : ¬n - 3 ≤ 1)]
  · intro m w h3 h2 h1
    unfold map_witness_into_range
    rw [if_neg (by omega : ¬w < 2), if_pos h1, if_pos h3]

/-- C2 witness: the invariant instantiated at the candidate 7 with the
all-zero seed. -/
theorem witness_range_invariant_witness :
    4 < 7 ∧
      ((∀ w ∈ generate_standard_witnesses MR_STANDARD_WITNESSES (mr_context_init 7),
          2 ≤ w ∧ w ≤ 7 - 2) ∧
        (∀ w ∈ generate_geodesic_witnesses MR_GEODESIC_WITNESSES 7
            ⟨List.replicate 32 0⟩ 0 (mr_context_init 7), 2 ≤ w ∧ w ≤ 7 - 2) ∧
        (∀ w, w < 2 → map_witness_into_range (mr_context_init 7) w = 2) ∧
        (∀ w, 7 - 1 ≤ w →
          map_witness_into_range (mr_context_init 7) w = w % (7 - 3) + 2) ∧
        (∀ m w, (mr_context_init m).n_minus_3 ≤ 1 → 2 ≤ w →
          (mr_context_init m).n_minus_1 ≤ w →
          map_witness_into_range (mr_context_init m) w = 2)) :=
  ⟨by decide, witness_range_invariant 7 ⟨List.replicate 32 0⟩ 0 (by decide)⟩

/-! ### Miller-Rabin never rejects a prime -/

theorem pow_two_pow_eq_one_cases {F : Type} [Field F] (b : F) :
    ∀ r : Nat, b ^ 2 ^ r = 1 → b = 1 ∨ ∃ i, i < r ∧ b ^ 2 ^ i = -1 := by
  intro r
  induction r with
  | zero => intro h; left; simpa using h
  | succ r ih =>
      intro h
      have hsq : b ^ 2 ^ r * b ^ 2 ^ r = 1 := by
        rw [← pow_two, ← pow_mul, ← pow_succ]
        exact h
      rcases mul_self_eq_one_iff.mp hsq with h1 | h1
      · rcases ih h1 with h2 | ⟨i, hi, h2⟩
        · exact Or.inl h2
        · exact Or.inr ⟨i, by omega, h2⟩
      · exact Or.inr ⟨r, by omega, h1⟩

theorem miller_rabin_round_prime (n : Nat) (hp : Nat.Prime n) (hodd : n % 2 = 1)
    (a : Nat) (ha1 : 2 ≤ a) (ha2 : a ≤ n - 2) :
    miller_rabin_round (mr_context_init n) a = true := by
  haveI : Fact (Nat.Prime n) := ⟨hp⟩
  have hn2 : 2 ≤ n := hp.two_le
  have hn3 : 3 ≤ n := by omega
  haveI : NeZero n := ⟨by omega⟩
  obtain ⟨hdodd, hdr⟩ := mr_context_decomposition n hn2
  have ha0 : (a : ZMod n) ≠ 0 := by
    rw [Ne, ZMod.natCast_zmod_eq_zero_iff_dvd]
    intro hdvd
    have := Nat.le_of_dvd (by omega) hdvd
    omega
  have hferm : (a : ZMod n) ^ (n - 1) = 1 := ZMod.pow_card_sub_one_eq_one ha0
  have hb : ((a : ZMod n) ^ (mr_context_init n).d) ^ 2 ^ (mr_context_init n).r = 1 := by
    rw [← pow_mul, hdr]
    exact hferm
  have hneg : ((n - 1 : Nat) : ZMod n) = -1 := by
    rw [Nat.cast_sub (by omega : 1 ≤ n), ZMod.natCast_self, Nat.cast_one, zero_sub]
  -- transfer a ZMod equation on a power of `a` to the Nat computation
  have hval : ∀ e t : Nat, t < n → ((a ^ e : Nat) : ZMod n) = ((t : Nat) : ZMod n) →
      a ^ e % n = t := by
    intro e t ht hcasteq
    have h1 : ((a ^ e % n : Nat) : ZMod n) = ((t : Nat) : ZMod n) := by
      rw [ZMod.natCast_mod]
      exact hcasteq
    have h2 := congrArg ZMod.val h1
    rw [ZMod.val_natCast_of_lt (Nat.mod_lt _ (by omega)),
      ZMod.val_natCast_of_lt ht] at h2
    exact h2
  unfold miller_rabin_round
  have hxn : (mr_context_init n).n = n := rfl
  have hxn1 : (mr_context_init n).n_minus_1 = n - 1 := rfl
  rw [hxn, hxn1]
  rcases pow_two_pow_eq_one_cases ((a : ZMod n) ^ (mr_context_init n).d)
      (mr_context_init n).r hb with h1 | ⟨i, hir, h1⟩
  · -- a ^ d ≡ 1
    have : a ^ (mr_context_init n).d % n = 1 := by
      apply hval _ 1 (by omega)
      rw [Nat.cast_pow, Nat.cast_one]
      exact h1
    rw [if_pos (Or.inl this)]
  · rcases Nat.eq_zero_or_pos i with hi0 | hi1
    · -- a ^ d ≡ -1
      subst hi0
      rw [pow_zero, pow_one] at h1
      have : a ^ (mr_context_init n).d % n = n - 1 := by
        apply hval _ (n - 1) (by omega)
        rw [Nat.cast_pow]
        rw [hneg]
        exact h1
      rw [if_pos (Or.inr this)]
    · -- some intermediate square ≡ -1
      have hr1 : 1 ≤ (mr_context_init n).r := by omega
      by_cases hx : a ^ (mr_context_init n).d % n = 1 ∨
          a ^ (mr_context_init n).d % n = n - 1
      · rw [if_pos hx]
      · rw [if_neg hx]
        rw [mrSquareLoop_iff]
        refine ⟨i, hi1, by omega, ?_⟩
        have hpowmod : (a ^ (mr_context_init n).d % n) ^ 2 ^ i % n =
            a ^ ((mr_context_init n).d * 2 ^ i) % n := by
          rw [Nat.pow_mod, Nat.mod_mod_of_dvd _ dvd_rfl, ← Nat.pow_mod, ← pow_mul]
        rw [hpowmod]
        apply hval _ (n - 1) (by omega)
        rw [Nat.cast_pow, hneg, pow_mul]
        exact h1

theorem probable_prime_of_prime (n : Nat) (hp : Nat.Prime n) (h4 : 4 < n)
    (cfg : Config) (hint : Nat) : candidate_is_probable_prime n cfg hint = true := by
  have hodd : n % 2 = 1 := Nat.odd_iff.mp (hp.odd_of_ne_two (by omega))
  have hloopall : ∀ ws : List Nat, (∀ w ∈ ws, 2 ≤ w ∧ w ≤ n - 2) →
      witnessRoundsLoop (mr_context_init n) ws = true := by
    intro ws hws
    rw [witnessRoundsLoop_eq_all, List.all_eq_true]
    intro w hw
    obtain ⟨h1, h2⟩ := hws w hw
    exact miller_rabin_round_prime n hp hodd w h1 h2
  unfold candidate_is_probable_prime
  rw [if_neg (by omega : ¬n < 2), if_neg (by omega : ¬n = 2), if_neg (by omega)]
  show (if witnessRoundsLoop (mr_context_init n)
        (generate_geodesic_witnesses MR_GEODESIC_WITNESSES n cfg hint
          (mr_context_init n)) = true then
      witnessRoundsLoop (mr_context_init n)
        (generate_standard_witnesses MR_STANDARD_WITNESSES (mr_context_init n))
    else false) = true
  rw [hloopall _ (geodesic_witness_mem_range n h4 _ cfg hint),
    hloopall _ (standard_witness_mem_range n h4 _)]
  simp

/-! ### Known composite and prime values -/

theorem probable_prime_eq_false_of_standard (n : Nat) (cfg : Config) (hint : Nat)
    (h1 : 2 ≤ n) (h2 : n ≠ 2) (h3 : n % 2 = 1)
    (hstd : witnessRoundsLoop (mr_context_init n)
        (generate_standard_witnesses MR_STANDARD_WITNESSES (mr_context_init n)) = false) :
    candidate_is_probable_prime n cfg hint = false := by
  unfold candidate_is_probable_prime
  rw [if_neg (by omega : ¬n < 2), if_neg h2, if_neg (by omega)]
  show (if witnessRoundsLoop (mr_context_init n)
        (generate_geodesic_witnesses MR_GEODESIC_WITNESSES n cfg hint
          (mr_context_init n)) = true then
      witnessRoundsLoop (mr_context_init n)
        (generate_standard_witnesses MR_STANDARD_WITNESSES (mr_context_init n))
    else false) = false
  rw [hstd]
  exact ite_self false

/-- C6: for every seed and every hint, `candidate_is_probable_prime` rejects
the composites 341, 561 and 645 (the always-evaluated fixed witness set
proves them composite regardless of the seed-derived witnesses) and accepts
the primes 97 and 104729. -/
theorem miller_rabin_known_values (cfg : Config) (hint : Nat) :
    candidate_is_probable_prime 341 cfg hint = false ∧
      candidate_is_probable_prime 561 cfg hint = false ∧
      candidate_is_probable_prime 645 cfg hint = false ∧
      candidate_is_probable_prime 97 cfg hint = true ∧
      candidate_is_probable_prime 104729 cfg hint = true :=
  ⟨probable_prime_eq_false_of_standard 341 cfg hint (by norm_num) (by norm_num)
      (by norm_num) (by decide),
    probable_prime_eq_false_of_standard 561 cfg hint (by norm_num) (by norm_num)
      (by norm_num) (by decide),
    probable_prime_eq_false_of_standard 645 cfg hint (by norm_num) (by norm_num)
      (by norm_num) (by decide),
    probable_prime_of_prime 97 (by norm_num) (by norm_num) cfg hint,
    probable_prime_of_prime 104729 (by norm_num) (by norm_num) cfg hint⟩

/-! ### Search behaviour on even and odd starts -/

theorem probable_prime_even_false (n : Nat) (cfg : Config) (hint : Nat)
    (h2 : n ≠ 2) (he : n % 2 = 0) : candidate_is_probable_prime n cfg hint = false := by
  unfold candidate_is_probable_prime
  by_cases h : n < 2
  · rw [if_pos h]
  · rw [if_neg h, if_neg h2, if_pos he]

theorem search_loop_step_even (cfg : Config) (hint_seed : Nat) (c k f : Nat)
    (hc : c % 2 = 0) (hc2 : c ≠ 2) :
    search_loop cfg hint_seed 0 false none false c k (f + 1) =
      search_loop cfg hint_seed 0 false none false (c + 2) (k + 1) f := by
  simp only [search_loop, probable_prime_even_false c cfg _ hc2 hc]
  simp

theorem search_loop_even_none (cfg : Config) (hint_seed : Nat) :
    ∀ (f c k : Nat), c % 2 = 0 → 2 < c →
      search_loop cfg hint_seed 0 false none false c k f = none := by
  intro f
  induction f with
  | zero => intro c k h1 h2; rfl
  | succ f ih =>
      intro c k h1 h2
      rw [search_loop_step_even cfg hint_seed c k f h1 (by omega)]
      exact ih (c + 2) (k + 1) (by omega) (by omega)

/-- C7 counterexample: called directly with the even start 100 (attempt
budget 10, width unrestricted), `search_prime_candidates` does not normalize
the start to odd; it tests only even candidates and reports not-found instead
of returning 101. -/
theorem search_even_start_counterexample :
    search_prime_candidates 100 10 ⟨List.replicate 32 0⟩ 0 0 false none false = none := by
  have h := search_loop_even_none ⟨List.replicate 32 0⟩ 0 10 100 0 (by norm_num)
    (by norm_num)
  unfold search_prime_candidates
  rw [if_neg (by omega : ¬(10 : Nat) = 0)]
  exact h

/-- C7 amended: `search_prime_candidates` does not itself normalize the
start; from the even start 100 it finds nothing, while from the caller-
normalized odd start 101 it succeeds immediately, returning the prime 101
with `attempts_used = 0`, for every seed and hint. -/
theorem search_start_101_amended (cfg : Config) (hint_seed : Nat) :
    search_prime_candidates 101 10 cfg hint_seed 0 false none false = some (101, 0) ∧
      search_prime_candidates 100 10 cfg hint_seed 0 false none false = none := by
  constructor
  · unfold search_prime_candidates
    rw [if_neg (by omega : ¬(10 : Nat) = 0)]
    rw [show (10 : Nat) = 9 + 1 from rfl]
    simp only [search_loop,
      probable_prime_of_prime 101 (by norm_num) (by norm_num) cfg (hint_seed ^^^ 0)]
    simp [too_close_guard]
  · unfold search_prime_candidates
    rw [if_neg (by omega : ¬(10 : Nat) = 0)]
    exact search_loop_even_none cfg hint_seed 10 100 0 (by norm_num) (by norm_num)

/-! ### Proximity guard -/

theorem search_loop_proximity (cfg : Config) (hint_seed limit_bit : Nat)
    (clamp_on_limit : Bool) (R : Nat) :
    ∀ (fuel c k : Nat),
      (search_loop cfg hint_seed limit_bit clamp_on_limit (some R) true c k fuel).all
        (fun pr => decide (¬pr.1 / 2 ^ (2048 - 100) = R / 2 ^ (2048 - 100))) = true := by
  intro fuel
  induction fuel with
  | zero => intro c k; rfl
  | succ fuel ih =>
      intro c k
      simp only [search_loop]
      by_cases hfound : (candidate_is_probable_prime c cfg (hint_seed ^^^ k) &&
          too_close_guard (some R) true c) = true
      · rw [if_pos hfound]
        have h2 : x931_too_close_2048 R c = false := by
          cases hx : x931_too_close_2048 R c
          · rfl
          · rw [show too_close_guard (some R) true c =
                !(true && x931_too_close_2048 R c) from rfl, hx] at hfound
            simp at hfound
        have h3 : ¬R / 2 ^ (2048 - 100) = c / 2 ^ (2048 - 100) :=
          of_decide_eq_false h2
        show decide (¬c / 2 ^ (2048 - 100) = R / 2 ^ (2048 - 100)) = true
        exact decide_eq_true fun h => h3 h.symm
      · rw [if_neg hfound]
        by_cases hlim : (0 < limit_bit && (c + 2).testBit limit_bit) = true
        · rw [if_pos hlim]
          cases clamp_on_limit
          · rfl
          · exact ih _ _
        · rw [if_neg hlim]
          exact ih _ _

/-- C5: with a reference prime `R` supplied and `enforce_not_too_close` set,
the candidate search never returns a probable prime whose top 100 bits of the
2048-bit width (the quotient by `2 ^ 1948`) equal `R`'s; such candidates are
skipped and the search continues. -/
theorem search_prime_candidates_proximity_guard (start max_attempts : Nat)
    (cfg : Config) (hint_seed limit_bit : Nat) (clamp_on_limit : Bool) (R : Nat) :
    (search_prime_candidates start max_attempts cfg hint_seed limit_bit
        clamp_on_limit (some R) true).all
      (fun pr => decide (¬pr.1 / 2 ^ (2048 - 100) = R / 2 ^ (2048 - 100))) = true := by
  unfold search_prime_candidates
  by_cases h : max_attempts = 0
  · rw [if_pos h]; rfl
  · rw [if_neg h]
    exact search_loop_proximity cfg hint_seed limit_bit clamp_on_limit R _ _ _

/-! ### Width-boundary invariants of the guided search -/

theorem pow2048_eq : (2 : Nat) ^ 2048 = 2 * 2 ^ 2047 := by ring

theorem testBit_2047_of_mem (c : Nat) (h1 : 2 ^ 2047 ≤ c) (h2 : c < 2 ^ 2048) :
    c.testBit 2047 = true := by
  rw [Nat.testBit_to_div_mod]
  have hdiv : c / 2 ^ 2047 = 1 := by
    have := pow2048_eq
    omega
  rw [hdiv]
  rfl

set_option maxRecDepth 10000 in
theorem search_loop_bound (cfg : Config) (hint_seed : Nat)
    (tcRef : Option Nat) (enf : Bool) :
    ∀ (fuel c k : Nat), c % 2 = 1 → 2 ^ 2047 ≤ c → c < 2 ^ 2048 →
      (search_loop cfg hint_seed 2048 false tcRef enf c k fuel).all
        (fun pr => decide (pr.1 < 2 ^ 2048) && decide (pr.1 % 2 = 1) &&
          pr.1.testBit 2047) = true := by
  intro fuel
  induction fuel with
  | zero => intro c k h1 h2 h3; rfl
  | succ fuel ih =>
      intro c k h1 h2 h3
      simp only [search_loop]
      by_cases hfound : (candidate_is_probable_prime c cfg (hint_seed ^^^ k) &&
          too_close_guard tcRef enf c) = true
      · rw [if_pos hfound]
        show (decide (c < 2 ^ 2048) && decide (c % 2 = 1) && c.testBit 2047) = true
        rw [decide_eq_true h3, decide_eq_true h1, testBit_2047_of_mem c h2 h3]
        rfl
      · rw [if_neg hfound]
        by_cases hlim : (0 < (2048 : Nat) && (c + 2).testBit 2048) = true
        · rw [if_pos hlim]
          rfl
        · rw [if_neg hlim]
          have hnb : (c + 2).testBit 2048 = false := by
            cases hx : (c + 2).testBit 2048
            · rfl
            · exact absurd (by rw [hx]; rfl) hlim
          have hc2 : c + 2 < 2 ^ 2048 := by
            by_contra hge
            push_neg at hge
            have heq : c + 2 = 2 ^ 2048 + 1 := by
              have := pow2048_eq
              omega
            rw [heq, Nat.testBit_to_div_mod] at hnb
            have hdiv : ((2 : Nat) ^ 2048 + 1) / 2 ^ 2048 = 1 := by omega
            rw [hdiv] at hnb
            simp at hnb
          exact ih (c + 2) (k + 1) (by omega) (by omega) hc2

theorem guided_base_start_spec (est : Nat) :
    guided_base_start est % 2 = 1 ∧ 2 ^ 2047 ≤ guided_base_start est ∧
      guided_base_start est < 2 ^ 2048 := by
  have hp := pow2048_eq
  have hm : est % 2 ^ 2048 < 2 ^ 2048 := Nat.mod_lt _ (by positivity)
  unfold guided_base_start mpz_setbit
  set m := est % 2 ^ 2048 with hmdef
  have hs1 : 2 ^ 2047 ≤ (if m.testBit 2047 then m else m + 2 ^ 2047) ∧
      (if m.testBit 2047 then m else m + 2 ^ 2047) < 2 ^ 2048 := by
    by_cases hb : m.testBit 2047
    · rw [if_pos hb]
      rw [Nat.testBit_to_div_mod] at hb
      have : m / 2 ^ 2047 % 2 = 1 := of_decide_eq_true hb
      constructor
      · have : 1 ≤ m / 2 ^ 2047 := by omega
        calc 2 ^ 2047 = 1 * 2 ^ 2047 := by ring
          _ ≤ m / 2 ^ 2047 * 2 ^ 2047 := by
              exact Nat.mul_le_mul_right _ this
          _ ≤ m := Nat.div_mul_le_self m _
      · exact hm
    · rw [if_neg hb]
      rw [Nat.testBit_to_div_mod] at hb
      have hb0 : ¬m / 2 ^ 2047 % 2 = 1 := fun h => hb (decide_eq_true h)
      have hdiv0 : m / 2 ^ 2047 = 0 := by omega
      have hmlt : m < 2 ^ 2047 := by omega
      omega
  set s1 := if m.testBit 2047 then m else m + 2 ^ 2047 with hs1def
  by_cases hb0 : s1.testBit 0
  · rw [if_pos hb0]
    have : s1 % 2 = 1 := by
      rw [Nat.testBit_to_div_mod] at hb0
      have := of_decide_eq_true hb0
      simpa using this
    exact ⟨this, hs1.1, hs1.2⟩
  · rw [if_neg hb0]
    have heven : s1 % 2 = 0 := by
      rw [Nat.testBit_to_div_mod] at hb0
      have : ¬s1 / 2 ^ 0 % 2 = 1 := fun h => hb0 (decide_eq_true h)
      simp at this
      omega
    refine ⟨by omega, by omega, ?_⟩
    have := hs1.2
    omega

set_option maxRecDepth 10000 in
theorem guided_loop_bound (cfg : Config) (hint_seed : Nat) (tcRef : Option Nat)
    (enf : Bool) (base : Nat) (hb1 : base % 2 = 1) (hb2 : 2 ^ 2047 ≤ base) :
    ∀ (fuel current remaining offset : Nat), base ≤ current → current % 2 = 1 →
      (guided_loop cfg hint_seed tcRef enf base fuel current remaining offset).all
        (fun pr => decide (pr.1 < 2 ^ 2048) && decide (pr.1 % 2 = 1) &&
          pr.1.testBit 2047) = true := by
  intro fuel
  induction fuel with
  | zero => intro c r o hc1 hc2; rfl
  | succ fuel ih =>
      intro c r o hc1 hc2
      simp only [guided_loop]
      by_cases hr : r = 0
      · rw [if_pos hr]; rfl
      rw [if_neg hr]
      by_cases hcb : 2 ^ 2048 ≤ c
      · rw [if_pos hcb]; rfl
      rw [if_neg hcb]
      have hs : (search_prime_candidates c (guided_segment c r) cfg
          ((hint_seed + o) % 2 ^ 64) 2048 false tcRef enf).all
          (fun pr => decide (pr.1 < 2 ^ 2048) && decide (pr.1 % 2 = 1) &&
            pr.1.testBit 2047) = true := by
        unfold search_prime_candidates
        by_cases hseg : guided_segment c r = 0
        · rw [if_pos hseg]; rfl
        · rw [if_neg hseg]
          exact search_loop_bound cfg _ tcRef enf _ c 0 hc2 (le_trans hb2 hc1)
            (by omega)
      cases hres : search_prime_candidates c (guided_segment c r) cfg
          ((hint_seed + o) % 2 ^ 64) 2048 false tcRef enf with
      | some pa =>
          rw [hres] at hs
          simp only [hres]
          simpa [Option.all] using hs
      | none =>
          simp only [hres]
          by_cases hr2 : r - guided_segment c r = 0
          · rw [if_pos hr2]; rfl
          rw [if_neg hr2]
          by_cases hc2b : 2 ^ 2048 ≤ base + 2 * (o + guided_segment c r)
          · rw [if_pos hc2b]; rfl
          rw [if_neg hc2b]
          exact ih _ _ _ (by omega) (by omega)

set_option maxRecDepth 10000 in
theorem guided_loop_origins_bound (cfg : Config) (hint_seed : Nat)
    (tcRef : Option Nat) (enf : Bool) (base : Nat) :
    ∀ (fuel current remaining offset : Nat),
      (guided_loop_origins cfg hint_seed tcRef enf base fuel current remaining
          offset).all (fun org => decide (org < 2 ^ 2048)) = true := by
  intro fuel
  induction fuel with
  | zero => intro c r o; rfl
  | succ fuel ih =>
      intro c r o
      simp only [guided_loop_origins]
      by_cases hr : r = 0
      · rw [if_pos hr]; rfl
      rw [if_neg hr]
      by_cases hcb : 2 ^ 2048 ≤ c
      · rw [if_pos hcb]; rfl
      rw [if_neg hcb]
      rw [List.all_cons]
      rw [decide_eq_true (show c < 2 ^ 2048 by omega), Bool.true_and]
      cases hres : search_prime_candidates c (guided_segment c r) cfg
          ((hint_seed + o) % 2 ^ 64) 2048 false tcRef enf with
      | some pa => simp only [hres]; rfl
      | none =>
          simp only [hres]
          by_cases hr2 : r - guided_segment c r = 0
          · rw [if_pos hr2]; rfl
          rw [if_neg hr2]
          by_cases hc2b : 2 ^ 2048 ≤ base + 2 * (o + guided_segment c r)
          · rw [if_pos hc2b]; rfl
          rw [if_neg hc2b]
          exact ih _ _ _

set_option maxRecDepth 10000 in
/-- C4: for every estimated start, attempt budget, seed and hint,
`guided_prime_search` never returns a candidate at or above `2^2048` — every
returned candidate is below the boundary, odd, and has bit 2047 set — and
every search origin it hands to `search_prime_candidates` is below `2^2048`
(it stops instead of wrapping). -/
theorem guided_prime_search_boundary (estimated_start max_attempts : Nat)
    (cfg : Config) (hint_seed : Nat) (too_close_ref : Option Nat)
    (enforce_not_too_close : Bool) :
    (guided_prime_search estimated_start max_attempts cfg hint_seed too_close_ref
        enforce_not_too_close).all
        (fun pr => decide (pr.1 < 2 ^ 2048) && decide (pr.1 % 2 = 1) &&
          pr.1.testBit 2047) = true ∧
      (guided_search_origins estimated_start max_attempts cfg hint_seed
          too_close_ref enforce_not_too_close).all
        (fun org => decide (org < 2 ^ 2048)) = true := by
  obtain ⟨h1, h2, h3⟩ := guided_base_start_spec estimated_start
  unfold guided_prime_search guided_search_origins
  constructor
  · exact guided_loop_bound cfg hint_seed too_close_ref enforce_not_too_close _
      h1 h2 _ _ _ _ (le_refl _) h1
  · exact guided_loop_origins_bound cfg hint_seed too_close_ref
      enforce_not_too_close _ _ _ _ _

/-! ### Derivation stream -/

theorem deriveLoop_eq_chain : ∀ (k : Nat) (digest : List Nat) (n : Nat),
    digest.length = 32 → n ≤ 32 * k →
    deriveLoop digest n = (digestChainBytes digest k).take n := by
  intro k
  induction k with
  | zero =>
      intro digest n hlen hle
      have hn : n = 0 := by omega
      subst hn
      rw [deriveLoop]
      simp [digestChainBytes]
  | succ k ih =>
      intro digest n hlen hle
      by_cases hn : n ≤ 32
      · rw [deriveLoop, if_pos hn]
        simp only [digestChainBytes]
        rw [List.take_append_of_le_length (by omega)]
      · rw [deriveLoop, if_neg hn]
        rw [List.take_of_length_le (by omega)]
        rw [ih (sha256 digest) (n - 32) (sha256_length digest) (by omega)]
        simp only [digestChainBytes]
        rw [List.take_append_eq_append_take,
          List.take_of_length_le (show digest.length ≤ n by omega), hlen]

/-- C3: for every 32-byte seed, tag and requested length `n > 0`,
`derive_seed` yields the first `n` bytes of the stream
`digest0 || digest1 || ...` with `digest0 = SHA256(tag[0..min(|tag|,32)) || seed)`
and `digest_{i+1} = SHA256(digest_i)`; in particular for the all-zero seed,
tag "test" and length 16 the output is the first 16 bytes of
`SHA256("test" || 32 zero bytes)`. -/
theorem derive_seed_stream_spec :
    (∀ (seedBytes : List Nat) (tag : List Char) (n k : Nat),
        seedBytes.length = 32 → 0 < n → n ≤ 32 * k →
        derive_seed (some seedBytes) (some tag) true n =
          (digestChainBytes (sha256 ((tag.take 32).map Char.toNat ++ seedBytes))
            k).take n) ∧
      derive_seed (some (List.replicate 32 0)) (some "test".toList) true 16 =
        (sha256 ("test".toList.map Char.toNat ++ List.replicate 32 0)).take 16 := by
  constructor
  · intro seedBytes tag n k hlen hn hk
    unfold derive_seed
    rw [if_neg (by simp; omega)]
    exact deriveLoop_eq_chain k _ n (sha256_length _) hk
  · unfold derive_seed
    rw [if_neg (by simp)]
    show deriveLoop (sha256 (("test".toList.take 32).map Char.toNat ++
      List.replicate 32 0)) 16 = _
    rw [deriveLoop, if_pos (by omega)]
    rfl

/-- C3 witness: the stream property applied at the all-zero seed with the tag
"p", requested length 16, and one digest in the chain. -/
theorem derive_seed_stream_spec_witness :
    derive_seed (some (List.replicate 32 0)) (some "p".toList) true 16 =
      (digestChainBytes (sha256 (("p".toList.take 32).map Char.toNat ++
        List.replicate 32 0)) 1).take 16 :=
  derive_seed_stream_spec.1 (List.replicate 32 0) "p".toList 16 1 (by decide)
    (by decide) (by decide)

/-- C10: at the derive interface's edge cases, a NULL output buffer or a zero
requested length writes nothing, and a NULL base seed or a NULL tag fills the
whole output with zero bytes with no error indication — callers passing
invalid inputs receive all-zero derived material rather than a failure. -/
theorem derive_seed_edge_cases (output_size : Nat) (base_seed : Option (List Nat))
    (tag : Option (List Char)) (seedBytes : List Nat) (tagStr : List Char) :
    derive_seed base_seed tag false output_size = [] ∧
      derive_seed base_seed tag true 0 = [] ∧
      derive_seed none (some tagStr) true output_size =
        List.replicate output_size 0 ∧
      derive_seed (some seedBytes) none true output_size =
        List.replicate output_size 0 := by
  refine ⟨?_, ?_, ?_, ?_⟩
  · unfold derive_seed
    rw [if_pos (by simp)]
  · unfold derive_seed
    rw [if_pos (by simp)]
  · unfold derive_seed
    rcases Nat.eq_zero_or_pos output_size with h | h
    · subst h
      rw [if_pos (by simp)]
      rfl
    · rw [if_neg (by simp; omega)]
  · unfold derive_seed
    rcases Nat.eq_zero_or_pos output_size with h | h
    · subst h
      rw [if_pos (by simp)]
      rfl
    · rw [if_neg (by simp; omega)]

/-! ### Fail-closed seed generation -/

/-- C8: with a valid output pointer, `z_generate_seed` fails closed: it
returns `ZSEED_ERR_ENTROPY_UNAVAIL` exactly when the OS random source cannot
be opened, `ZSEED_ERR_READ_FAILURE` exactly when fewer than 32 bytes are
read, and `ZSEED_ERR_CRYPTO_FAILURE` exactly when the SHA-256 mixing step
cannot be initialized or fails; it never substitutes weaker randomness, and
it succeeds exactly when every step works, with the output equal to the 32
OS bytes XORed byte-wise with `SHA256(OS bytes || salt)` — the OS entropy is
never replaced. -/
theorem z_generate_seed_fail_closed (urandomOpenOk ctxAllocOk digestOk : Bool)
    (osBytes salt : List Nat) (hread : osBytes.length ≤ 32) :
    (z_generate_seed true urandomOpenOk osBytes salt ctxAllocOk digestOk =
        .errEntropyUnavail ↔ urandomOpenOk = false) ∧
      (z_generate_seed true urandomOpenOk osBytes salt ctxAllocOk digestOk =
        .errReadFailure ↔ urandomOpenOk = true ∧ osBytes.length < 32) ∧
      (z_generate_seed true urandomOpenOk osBytes salt ctxAllocOk digestOk =
        .errCryptoFailure ↔ urandomOpenOk = true ∧ osBytes.length = 32 ∧
          (ctxAllocOk = false ∨ digestOk = false)) ∧
      (∀ s, z_generate_seed true urandomOpenOk osBytes salt ctxAllocOk digestOk =
        .ok s ↔ urandomOpenOk = true ∧ osBytes.length = 32 ∧ ctxAllocOk = true ∧
          digestOk = true ∧
          s = List.zipWith (fun a b => a ^^^ b) osBytes
            ((sha256 (osBytes ++ salt)).take 32)) := by
  have hsha := sha256_length (osBytes ++ salt)
  unfold z_generate_seed
  rcases urandomOpenOk <;> rcases ctxAllocOk <;> rcases digestOk <;>
    by_cases hlen : osBytes.length = 32 <;>
    simp [hlen, hsha, eq_comm] <;> omega

/-- C8 witness: the fail-closed characterization applied at a concrete
healthy environment — source open, 32 zero bytes read, crypto working. -/
theorem z_generate_seed_fail_closed_witness :
    (List.replicate 32 0 : List Nat).length ≤ 32 ∧
      ((z_generate_seed true true (List.replicate 32 0) [] true true =
          .errEntropyUnavail ↔ (true : Bool) = false) ∧
        (z_generate_seed true true (List.replicate 32 0) [] true true =
          .errReadFailure ↔ (true : Bool) = true ∧
            (List.replicate 32 0 : List Nat).length < 32) ∧
        (z_generate_seed true true (List.replicate 32 0) [] true true =
          .errCryptoFailure ↔ (true : Bool) = true ∧
            (List.replicate 32 0 : List Nat).length = 32 ∧
            ((true : Bool) = false ∨ (true : Bool) = false)) ∧
        (∀ s, z_generate_seed true true (List.replicate 32 0) [] true true =
          .ok s ↔ (true : Bool) = true ∧
            (List.replicate 32 0 : List Nat).length = 32 ∧ (true : Bool) = true ∧
            (true : Bool) = true ∧
            s = List.zipWith (fun a b => a ^^^ b) (List.replicate 32 0)
              ((sha256 (List.replicate 32 0 ++ [])).take 32))) :=
  ⟨by decide,
    z_generate_seed_fail_closed true true true (List.replicate 32 0) [] (by decide)⟩

/-! ### Hex round trip -/

def isLowerHexChar (c : Char) : Bool :=
  (48 ≤ c.toNat && c.toNat ≤ 57) || (97 ≤ c.toNat && c.toNat ≤ 102)

theorem hexDigitChar_facts : ∀ v : Nat, v < 16 →
    isLowerHexChar (hexDigitChar v) = true ∧
      isHexDigitChar (hexDigitChar v) = true ∧
      isScanSpace (hexDigitChar v) = false ∧
      hexCharVal (hexDigitChar v) = v := by decide

theorem z_seed_to_hex_cons (b : Nat) (bs : List Nat) :
    z_seed_to_hex (b :: bs) =
      hexDigitChar (b / 16) :: hexDigitChar (b % 16) :: z_seed_to_hex bs := by
  simp [z_seed_to_hex, byteToHex]

theorem z_seed_to_hex_drop : ∀ (i : Nat) (full : List Nat),
    (z_seed_to_hex full).drop (2 * i) = z_seed_to_hex (full.drop i) := by
  intro i
  induction i with
  | zero => intro full; rfl
  | succ i ih =>
      intro full
      cases full with
      | nil => simp [z_seed_to_hex]
      | cons b bs =>
          rw [z_seed_to_hex_cons]
          have h2 : 2 * (i + 1) = 2 * i + 1 + 1 := by omega
          rw [h2, List.drop_succ_cons, List.drop_succ_cons, List.drop_succ_cons]
          exact ih bs

theorem scanHexByte_encoded (b : Nat) (hb : b < 256) (bs : List Nat) :
    scanHexByte (z_seed_to_hex (b :: bs)) = some b := by
  rw [z_seed_to_hex_cons]
  have h1 := hexDigitChar_facts (b / 16) (by omega)
  have h2 := hexDigitChar_facts (b % 16) (by omega)
  unfold scanHexByte
  rw [List.dropWhile_cons_of_neg (by rw [h1.2.2.1]; exact Bool.false_ne_true)]
  show (if isHexDigitChar (hexDigitChar (b / 16)) = true then
      if isHexDigitChar (hexDigitChar (b % 16)) = true then
        some (16 * hexCharVal (hexDigitChar (b / 16)) +
          hexCharVal (hexDigitChar (b % 16)))
      else some (hexCharVal (hexDigitChar (b / 16)))
    else none) = some b
  rw [if_pos h1.2.1, if_pos h2.2.1, h1.2.2.2, h2.2.2.2]
  congr 1
  omega

theorem hexToSeedLoop_encoded (full : List Nat) (hb : ∀ b ∈ full, b < 256) :
    ∀ (count i : Nat), i + count ≤ full.length →
      hexToSeedLoop (z_seed_to_hex full) i count =
        some ((full.drop i).take count) := by
  intro count
  induction count with
  | zero => intro i hle; rfl
  | succ count ih =>
      intro i hle
      have hi : i < full.length := by omega
      have hdropeq := z_seed_to_hex_drop i full
      have hcons : full.drop i = full[i] :: full.drop (i + 1) :=
        List.drop_eq_getElem_cons hi
      simp only [hexToSeedLoop]
      rw [hdropeq, hcons,
        scanHexByte_encoded full[i] (hb _ (full.getElem_mem hi)) _]
      show (match hexToSeedLoop (z_seed_to_hex full) (i + 1) count with
        | none => none
        | some bs2 => some (full[i] :: bs2)) = _
      rw [ih (i + 1) (by omega)]
      show some (full[i] :: (full.drop (i + 1)).take count) = _
      rw [List.take_succ_cons]

theorem z_hex_to_seed_round_trip (seed : List Nat) (hlen : seed.length = 32)
    (hbytes : ∀ b ∈ seed, b < 256) :
    z_hex_to_seed (z_seed_to_hex seed) = some seed := by
  unfold z_hex_to_seed
  rw [hexToSeedLoop_encoded seed hbytes 32 0 (by omega)]
  simp [List.take_of_length_le (by omega : seed.length ≤ 32)]

theorem z_seed_to_hex_length : ∀ seed : List Nat,
    (z_seed_to_hex seed).length = 2 * seed.length := by
  intro seed
  induction seed with
  | nil => rfl
  | cons b bs ih =>
      rw [z_seed_to_hex_cons]
      simp only [List.length_cons, ih]
      omega

theorem z_seed_to_hex_lower : ∀ seed : List Nat, (∀ b ∈ seed, b < 256) →
    ∀ c ∈ z_seed_to_hex seed, isLowerHexChar c = true := by
  intro seed
  induction seed with
  | nil => intro _ c hc; simp [z_seed_to_hex] at hc
  | cons b bs ih =>
      intro hb c hc
      rw [z_seed_to_hex_cons] at hc
      have hblt : b < 256 := hb b (List.mem_cons_self b bs)
      rcases List.mem_cons.mp hc with hc1 | hc2
      · subst hc1
        exact (hexDigitChar_facts (b / 16) (by omega)).1
      rcases List.mem_cons.mp hc2 with hc3 | hc4
      · subst hc3
        exact (hexDigitChar_facts (b % 16) (by omega)).1
      · exact ih (fun x hx => hb x (List.mem_cons_of_mem b hx)) c hc4

theorem scanHexByte_head_fail (c : Char) (rest : List Char)
    (h1 : isScanSpace c = false) (h2 : isHexDigitChar c = false) :
    scanHexByte (c :: rest) = none := by
  unfold scanHexByte
  rw [List.dropWhile_cons_of_neg (by rw [h1]; exact Bool.false_ne_true)]
  cases rest with
  | nil => simp [h2]
  | cons c2 tail => simp [h2]

theorem z_hex_to_seed_head_fail (hex : List Char) (c : Char) (hc : hex.head? = some c)
    (h1 : isScanSpace c = false) (h2 : isHexDigitChar c = false) :
    z_hex_to_seed hex = none := by
  cases hex with
  | nil => simp at hc
  | cons c0 rest =>
      have hc0 : c0 = c := by simpa using hc
      subst hc0
      show hexToSeedLoop (c0 :: rest) 0 (31 + 1) = none
      simp only [hexToSeedLoop, Nat.mul_zero, List.drop_zero]
      rw [scanHexByte_head_fail c0 rest h1 h2]

/-- C9 counterexample: the malformed 64-character input "0g0g…0g" — every
pair has a non-hex second character — is nevertheless accepted by
`z_hex_to_seed` (each `sscanf("%02x")` parses the single digit `0` and
reports success), returning the all-zero seed instead of an error. -/
theorem hex_to_seed_malformed_counterexample :
    z_hex_to_seed (List.replicate 32 ['0', 'g']).flatten =
        some (List.replicate 32 0) ∧
      (List.replicate 32 ['0', 'g']).flatten.all isHexDigitChar = false := by
  constructor
  · decide
  · decide

/-- C9 (amended): for every 32-byte seed, `z_seed_to_hex` produces a
64-character lowercase hex string and `z_hex_to_seed` inverts it exactly;
`z_hex_to_seed` fails on inputs whose first character is neither scanf
whitespace nor a hex digit, but it does not reject every malformed string —
a pair whose first character is a hex digit and whose second is not parses
as a single digit and succeeds. -/
theorem seed_hex_round_trip (seed : List Nat) (hlen : seed.length = 32)
    (hbytes : ∀ b ∈ seed, b < 256) :
    (z_seed_to_hex seed).length = 64 ∧
      (∀ c ∈ z_seed_to_hex seed, isLowerHexChar c = true) ∧
      z_hex_to_seed (z_seed_to_hex seed) = some seed ∧
      (∀ (hex : List Char) (c : Char), hex.head? = some c →
        isScanSpace c = false → isHexDigitChar c = false →
        z_hex_to_seed hex = none) :=
  ⟨by rw [z_seed_to_hex_length, hlen],
    z_seed_to_hex_lower seed hbytes,
    z_hex_to_seed_round_trip seed hlen hbytes,
    fun hex c hc h1 h2 => z_hex_to_seed_head_fail hex c hc h1 h2⟩

/-- C9 witness: the round trip applied to the seed of bytes 0,…,31. -/
theorem seed_hex_round_trip_witness :
    (List.range 32).length = 32 ∧
      (((z_seed_to_hex (List.range 32)).length = 64 ∧
        (∀ c ∈ z_seed_to_hex (List.range 32), isLowerHexChar c = true) ∧
        z_hex_to_seed (z_seed_to_hex (List.range 32)) = some (List.range 32) ∧
        (∀ (hex : List Char) (c : Char), hex.head? = some c →
          isScanSpace c = false → isHexDigitChar c = false →
          z_hex_to_seed hex = none))) :=
  ⟨by decide,
    seed_hex_round_trip (List.range 32) (by decide)
      (by decide)⟩
